import Mathlib

/-!
# Verification of the SSM parameter-store binder (package `ssm`)

Shallow embedding of `ssm.go`: the schema resolver (`ParamStore.schema`),
the value binder (`ParamStore.Read` / `ParamStore.setValue`), the
construction options (`NewParamStore`, `WithPrefix`, `WithTag`,
`WithParseDuration`, `WithParseTime`, `WithParseNumber`, `WithClient`),
and the error taxonomy (`NotFoundError`, conversion errors, reflect
panics modelled as a distinguished error constructor).

Go strings are modelled as Lean `String` (a list of characters); the
string helpers from `strings`/`strconv` used by the source are
re-implemented structurally below so that the kernel can evaluate them.
-/

namespace SSM

/-! ## Go string helpers (package `strings`, re-implemented structurally) -/

/-- `strings.HasPrefix` on character lists: `goHasPfxL s pre` is true iff
`pre` is a prefix of `s`. -/
def goHasPfxL : List Char → List Char → Bool
  | _, [] => true
  | [], _ :: _ => false
  | c :: cs, d :: ds => c = d && goHasPfxL cs ds

/-- `strings.HasSuffix` on character lists. -/
def goHasSuffixL (s suf : List Char) : Bool :=
  goHasPfxL s.reverse suf.reverse

/-- `strings.TrimSuffix` on character lists: removes one copy of `suf`
from the end of `s` when present, otherwise returns `s` unchanged. -/
def goTrimSuffixL (s suf : List Char) : List Char :=
  if goHasSuffixL s suf then s.take (s.length - suf.length) else s

/-- `strings.HasPrefix`. -/
def goHasPfx (s pre : String) : Bool := goHasPfxL s.data pre.data

/-- `strings.HasSuffix`. -/
def goHasSuffix (s suf : String) : Bool := goHasSuffixL s.data suf.data

/-- `strings.TrimSuffix`. -/
def goTrimSuffix (s suf : String) : String := ⟨goTrimSuffixL s.data suf.data⟩

/-- `strings.Split(s, ",")` on character lists.  Always returns at least
one (possibly empty) part; splitting the empty string yields `[[]]`,
matching Go's `Split("", ",") = [""]`. -/
def splitCommaL : List Char → List (List Char)
  | [] => [[]]
  | c :: rest =>
    match splitCommaL rest with
    | [] => [[]]
    | s :: ss => if c = ',' then [] :: s :: ss else (c :: s) :: ss

/-- `strings.Split(s, ",")`. -/
def splitComma (s : String) : List String := (splitCommaL s.data).map String.mk

/-- `fmt`'s `%q` verb, modelled as plain double-quoting (the escaping of
special characters inside the string is not needed by any input used
here). -/
def quoteS (s : String) : String := "\"" ++ s ++ "\""

/-! ## `strconv` parsing (package `strconv`, modelled) -/

/-- `strconv.NumError`: the offending substring (`Num`) and the
underlying cause (`Err`, here the error's message: `"invalid syntax"` or
`"value out of range"`). -/
structure NumError where
  num : String
  err : String
  deriving DecidableEq, Repr

/-- `strconv.ParseInt(s, 10, 64)`: optional sign, then one or more
decimal digits; values outside the signed 64-bit range are a range
error.  (Digit-group underscores are only accepted by Go for base 0, so
they are rejected here as well.) -/
def goParseInt (s : String) : Except NumError Int :=
  match s.data with
  | [] => .error ⟨s, "invalid syntax"⟩
  | c :: rest =>
    let neg := c = '-'
    let ds := if c = '-' || c = '+' then rest else c :: rest
    if ds.isEmpty || !ds.all Char.isDigit then .error ⟨s, "invalid syntax"⟩
    else
      let n : Nat := ds.foldl (fun acc d => acc * 10 + (d.toNat - '0'.toNat)) 0
      if neg then
        if n ≤ 2 ^ 63 then .ok (-(n : Int)) else .error ⟨s, "value out of range"⟩
      else
        if n < 2 ^ 63 then .ok (n : Int) else .error ⟨s, "value out of range"⟩

/-- Exponent part of a decimal float literal: empty, or `e`/`E`, an
optional sign and one or more digits. -/
def floatExpPart : List Char → Bool
  | [] => true
  | c :: r =>
    if c = 'e' || c = 'E' then
      match r with
      | [] => false
      | d :: r' =>
        let ds := if d = '+' || d = '-' then r' else d :: r'
        !ds.isEmpty && ds.all Char.isDigit
    else false

/-- Decimal float forms after the optional sign: `digits`, `digits.`,
`digits.digits` or `.digits`, each with an optional exponent. -/
def floatDecForm (l : List Char) : Bool :=
  let ip := l.takeWhile Char.isDigit
  let r1 := l.dropWhile Char.isDigit
  match r1 with
  | '.' :: r2 =>
    let fp := r2.takeWhile Char.isDigit
    let r3 := r2.dropWhile Char.isDigit
    (!ip.isEmpty || !fp.isEmpty) && floatExpPart r3
  | _ => !ip.isEmpty && floatExpPart r1

/-- Syntax check of `strconv.ParseFloat(s, 64)`, modelled for the
decimal forms; the `Inf`/`NaN` words and hexadecimal floats accepted by
Go do not occur in any input considered here. -/
def goParseFloatOk (s : String) : Bool :=
  match s.data with
  | [] => false
  | c :: rest => floatDecForm (if c = '-' || c = '+' then rest else c :: rest)

/-! ## External library parsers used by the converter options (modelled) -/

/-- `time.ParseDuration`, modelled for inputs made of decimal digits
followed by a single unit (the only shapes relevant here); the result is
in nanoseconds.  Other valid Go forms (fractions, multiple terms, signs)
are not needed by the verified claims. -/
def goParseDuration (s : String) : Except String Int :=
  let ds := s.data.takeWhile Char.isDigit
  let rest := s.data.dropWhile Char.isDigit
  if ds.isEmpty then .error ("time: invalid duration " ++ quoteS s)
  else
    let n : Int := (ds.foldl (fun acc d => acc * 10 + (d.toNat - '0'.toNat)) 0 : Nat)
    if rest = ['n', 's'] then .ok n
    else if rest = ['u', 's'] then .ok (n * 1000)
    else if rest = ['m', 's'] then .ok (n * 1000000)
    else if rest = ['s'] then .ok (n * 1000000000)
    else if rest = ['m'] then .ok (n * 60000000000)
    else if rest = ['h'] then .ok (n * 3600000000000)
    else .error ("time: unknown unit in duration " ++ quoteS s)

/-- `time.Parse(layout, value)`, abstracted: calendar parsing is
external; the model accepts a value exactly when it has the layout's
length (all layouts used by the source's tests are fixed-width), and the
parsed instant is represented by the accepted text itself. -/
def goParseTime (layout value : String) : Except String String :=
  if value.length = layout.length then .ok value
  else .error ("parsing time " ++ quoteS value ++ " as " ++ quoteS layout ++ ": cannot parse")

/-! ## Data model: parameters, target types, target values -/

/-- The SSM parameter type (`ssm.ParameterType`): plain string, comma
delimited list, secure (decrypted) string. -/
inductive PType where
  | string
  | stringList
  | secureString
  deriving DecidableEq, Repr

/-- The Go string constant behind each parameter type (used by `%s`). -/
def ptypeName : PType → String
  | .string => "String"
  | .stringList => "StringList"
  | .secureString => "SecureString"

/-- `ssm.Parameter` as seen by `Read`/`setValue`: the key path
(`*p.Name`), the parameter type and the raw payload (`*p.Value`).  The
pointers are modelled dereferenced — `setValue` never reads `Name`, and
`Read` only processes responses in which both pointers are set. -/
structure GoParam where
  name : String
  ptype : PType
  value : String
  deriving DecidableEq, Repr

/-- Widths of the signed integer kinds accepted by `WithParseNumber`'s
`reflect.Int .. reflect.Int64` cases.  `time.Duration` has kind `Int64`
as well and is handled separately by the converter model. -/
inductive IntWidth where
  | int | int8 | int16 | int32 | int64
  deriving DecidableEq, Repr

/-- Bit width of each integer kind (Go `int` is 64-bit on the platforms
this package targets). -/
def IntWidth.bits : IntWidth → Nat
  | .int => 64
  | .int8 => 8
  | .int16 => 16
  | .int32 => 32
  | .int64 => 64

/-- Go kind name of each integer width. -/
def IntWidth.kindName : IntWidth → String
  | .int => "int"
  | .int8 => "int8"
  | .int16 => "int16"
  | .int32 => "int32"
  | .int64 => "int64"

inductive FloatWidth where
  | f32 | f64
  deriving DecidableEq, Repr

def FloatWidth.kindName : FloatWidth → String
  | .f32 => "float32"
  | .f64 => "float64"

mutual
/-- Go types as walked by the binder: the primitive convertible kinds,
the two special struct types `time.Duration` (kind `int64`) and
`time.Time` (a struct, special-cased by `schema`), slices, pointers and
structs.  `other kind name` stands for any remaining kind (`chan`,
`bool`, `map`, unsigned ints, ...), all of which fall through to the
`unsupported` branch of `setValue`; it carries the kind and type strings
Go would print. -/
inductive Ty where
  | string
  | intT (w : IntWidth)
  | floatT (w : FloatWidth)
  | durationT
  | timeT
  | slice (elem : Ty)
  | ptr (elem : Ty)
  | struct' (fields : Fields)
  | other (kind : String) (name : String)

/-- The field list of a struct type, in declaration order. -/
inductive Fields where
  | nil
  | cons (f : Field) (fs : Fields)

/-- One struct field: its Go name, its tag set (tag name/value pairs),
whether it is exported (`PkgPath == ""`), and its type. -/
inductive Field where
  | mk (name : String) (tags : List (String × String)) (exported : Bool) (ty : Ty)
end

/-- `reflect.StructTag.Lookup`. -/
def lookupTag (tags : List (String × String)) (tag : String) : Option String :=
  (tags.find? (fun kv => kv.1 = tag)).map (fun kv => kv.2)

mutual
/-- Go kind string of a type (`reflect.Kind.String`), as printed by the
`unsupported: %s` error. -/
def tyKind : Ty → String
  | .string => "string"
  | .intT w => w.kindName
  | .floatT w => w.kindName
  | .durationT => "int64"
  | .timeT => "struct"
  | .slice _ => "slice"
  | .ptr _ => "ptr"
  | .struct' _ => "struct"
  | .other k _ => k
end

mutual
/-- Go type string (`reflect.Type.String`), as printed by the
`cannot assign/set %s to %s` errors.  Struct field lists are abstracted
to `struct {...}`; no verified statement depends on that text. -/
def tyName : Ty → String
  | .string => "string"
  | .intT w => w.kindName
  | .floatT w => w.kindName
  | .durationT => "time.Duration"
  | .timeT => "time.Time"
  | .slice e => "[]" ++ tyName e
  | .ptr e => "*" ++ tyName e
  | .struct' _ => "struct {...}"
  | .other _ n => n
end

/-- Runtime values of the modelled types.  A float value is represented
by the text it was parsed from (IEEE rounding is external to this
model and no verified statement inspects a float); a time value by the
accepted text; `nilV` is a nil pointer and `ptrV v` an allocated pointer
to `v`; `otherV` is the zero value of an `other` kind. -/
inductive Val where
  | str (s : String)
  | intV (n : Int)
  | floatV (raw : String)
  | durationV (ns : Int)
  | timeV (raw : String)
  | sliceV (elems : List Val)
  | nilV
  | ptrV (v : Val)
  | structV (fields : List Val)
  | otherV

mutual
/-- The Go zero value of a type (`reflect.New(t).Elem()`). -/
def zeroVal : Ty → Val
  | .string => .str ""
  | .intT _ => .intV 0
  | .floatT _ => .floatV "0"
  | .durationT => .durationV 0
  | .timeT => .timeV ""
  | .slice _ => .sliceV []
  | .ptr _ => .nilV
  | .struct' fs => .structV (zeroFields fs)
  | .other _ _ => .otherV

def zeroFields : Fields → List Val
  | .nil => []
  | .cons f fs => zeroField f :: zeroFields fs

def zeroField : Field → Val
  | .mk _ _ _ ty => zeroVal ty
end

/-! ## Converters and the `ParamStore` configuration -/

/-- The converter functions that the public options can register: the
`converters` field of `ParamStore` is unexported, so every chain is a
sequence of the closures built by `WithParseDuration`, `WithParseTime`
and `WithParseNumber`. -/
inductive Converter where
  | duration
  | time (layout : String)
  | number
  deriving DecidableEq, Repr

/-- One converter applied to a parameter and a target type:
`none` models `(false, nil)` (not handled, chain continues);
`some (.ok v)` models `(true, nil)` with `v` assigned;
`some (.error e)` models a returned error (which stops the chain before
the `ok` flag is consulted, since `setValue` checks `err` first).

`WithParseDuration`/`WithParseTime` fire exactly when the target type is
`time.Duration`/`time.Time`; `WithParseNumber` fires on the integer
kinds (which include `time.Duration`, of kind `int64`) and the float
kinds.  `SetInt` truncates the parsed 64-bit value to the target's
width (two's complement); `SetFloat`'s narrowing to `float32` is not
observable in the textual float representation used here. -/
def convApply : Converter → GoParam → Ty → Option (Except String Val)
  | .duration, p, .durationT =>
    some (match goParseDuration p.value with
      | .ok n => .ok (.durationV n)
      | .error e => .error e)
  | .duration, _, _ => none
  | .time layout, p, .timeT =>
    some (match goParseTime layout p.value with
      | .ok raw => .ok (.timeV raw)
      | .error e => .error e)
  | .time _, _, _ => none
  | .number, p, .intT w =>
    some (match goParseInt p.value with
      | .ok n => .ok (.intV (Int.bmod n (2 ^ w.bits)))
      | .error ne => .error ("parse " ++ quoteS ne.num ++ " as int: " ++ ne.err))
  | .number, p, .durationT =>
    some (match goParseInt p.value with
      | .ok n => .ok (.durationV (Int.bmod n (2 ^ 64)))
      | .error ne => .error ("parse " ++ quoteS ne.num ++ " as int: " ++ ne.err))
  | .number, p, .floatT _ =>
    some (if goParseFloatOk p.value then .ok (.floatV p.value)
      else .error ("parse " ++ quoteS p.value ++ " as float: invalid syntax"))
  | .number, _, _ => none

/-- The chain loop at the top of `setValue`: first converter that
handles the value or errors wins. -/
def runConvs : List Converter → GoParam → Ty → Option (Except String Val)
  | [], _, _ => none
  | c :: cs, p, t =>
    match convApply c p t with
    | some r => some r
    | none => runConvs cs p t

/-- The AWS config handle returned by `external.LoadDefaultAWSConfig`
(opaque). -/
structure AWSConfig where
  deriving DecidableEq, Repr

/-- The SSM client capability (opaque: `Read` is modelled against the
response list directly). -/
inductive GoClient where
  | fromConfig (cfg : AWSConfig)
  | custom (id : Nat)
  deriving DecidableEq, Repr

/-- `ssm.ParamStore`: key prefix, struct tag name, converter chain and
optional client. -/
structure ParamStore where
  pfx : String
  tag : String
  converters : List Converter
  cli : Option GoClient
  deriving DecidableEq, Repr

/-! ## Construction: `NewParamStore` and the options -/

/-- The public `Option` values (`WithPrefix`, `WithTag`,
`WithParseDuration`, `WithParseTime`, `WithParseNumber`,
`WithClient`). -/
inductive GoOption where
  | withPfxOpt (p : String)
  | withTagOpt (t : String)
  | withParseDurationOpt
  | withParseTimeOpt (layout : String)
  | withParseNumberOpt
  | withClientOpt (c : GoClient)
  deriving DecidableEq, Repr

/-- The effect of each `Option` closure on the store under
construction.  `WithPrefix` normalizes: a missing leading `/` is added,
one trailing `/` is trimmed. -/
def applyOpt (s : ParamStore) : GoOption → ParamStore
  | .withPfxOpt p =>
    let p1 := if goHasPfx p "/" then p else "/" ++ p
    { s with pfx := goTrimSuffix p1 "/" }
  | .withTagOpt t => { s with tag := t }
  | .withParseDurationOpt => { s with converters := s.converters ++ [.duration] }
  | .withParseTimeOpt layout => { s with converters := s.converters ++ [.time layout] }
  | .withParseNumberOpt => { s with converters := s.converters ++ [.number] }
  | .withClientOpt c => { s with cli := some c }

/-- `NewParamStore(options...)`.  The defaults are tag `"ssm"`, empty
prefix, no converters, no client.  When no client was set the source
loads the default AWS config (modelled by the `loadCfg` argument, since
the environment is external) and then evaluates
`WithClient(ssm.New(cfg))` — but discards the returned `Option` without
applying it, so the store is returned with `cli` still unset. -/
def NewParamStore (opts : List GoOption) (loadCfg : Except String AWSConfig) :
    Except String ParamStore :=
  let s := opts.foldl applyOpt ⟨"", "ssm", [], none⟩
  if s.cli = none then
    match loadCfg with
    | .error e => .error ("load external aws config: " ++ e)
    | .ok cfg =>
      let _discarded := GoOption.withClientOpt (.fromConfig cfg)
      .ok s
  else .ok s

/-! ## `setValue`: type-directed conversion -/

/-- The element loop of `setValue`'s slice branch, with the element
converter abstracted: each part is converted through `f` (a synthetic
plain-string parameter in the caller); a failure is wrapped with the
element index. -/
def setSliceWith (f : String → Except String Val) :
    List String → Nat → Except String (List Val)
  | [], _ => .ok []
  | part :: rest, i =>
    match f part with
    | .error e => .error ("set slice index " ++ toString i ++ ": " ++ e)
    | .ok v =>
      match setSliceWith f rest (i + 1) with
      | .error e => .error e
      | .ok vs => .ok (v :: vs)

/-- Slice-nesting depth of a type: the recursion depth of `setValue`
(its only recursive path descends from a slice to its element type). -/
def tyDepth : Ty → Nat
  | .slice e => tyDepth e + 1
  | _ => 1

/-- The body of `ParamStore.setValue(p, v)`, structurally recursive on a
depth counter so that the kernel can evaluate it; `setValue` below
supplies `tyDepth t`, which the recursion never exhausts (each recursive
call strips one `slice`).  Logic, faithful to the source: offer the
parameter to the converter chain, then fall back by target kind.  On
success the new field value is returned; on error the field is left
unchanged by the caller (every branch of the source either assigns and
returns nil, or returns an error without assigning). -/
def setValueF : Nat → ParamStore → GoParam → Ty → Except String Val
  | 0, _, _, _ => .error "unreachable: slice depth exhausted"
  | fuel + 1, s, p, t =>
    match runConvs s.converters p t with
    | some (.error e) => .error e
    | some (.ok v) => .ok v
    | none =>
      match t with
      | .string =>
        match p.ptype with
        | .string => .ok (.str p.value)
        | .secureString => .ok (.str p.value)
        | _ => .error ("cannot assign " ++ ptypeName p.ptype ++ " to " ++ tyName t)
      | .slice elem =>
        if p.ptype ≠ .stringList then
          .error ("cannot set " ++ ptypeName p.ptype ++ " to " ++ tyName t)
        else
          match setSliceWith (fun part => setValueF fuel s ⟨"", .string, part⟩ elem)
              (splitComma p.value) 0 with
          | .error e => .error e
          | .ok vs => .ok (.sliceV vs)
      | t' => .error ("unsupported: " ++ tyKind t')

/-- `ParamStore.setValue(p, v)`. -/
def setValue (s : ParamStore) (p : GoParam) (t : Ty) : Except String Val :=
  setValueF (tyDepth t) s p t

/-! ## Schema resolution -/

/-- The schema mapping `map[string][]int`: key path → field access
path.  Modelled as an association list whose keys stay unique (insertion
replaces an existing binding, mirroring `m[k] = v`); iteration order is
one of Go's unspecified map orders. -/
abbrev Schema := List (String × List Nat)

/-- `m[k] = v` on a Go map: replace the binding if the key is present,
otherwise add it. -/
def insertS (m : Schema) (k : String) (v : List Nat) : Schema :=
  if m.any (fun kv => kv.1 = k) then
    m.map (fun kv => if kv.1 = k then (k, v) else kv)
  else m ++ [(k, v)]

/-- `for k, v := range nested { m[k] = v }`. -/
def mergeS (m nested : Schema) : Schema :=
  nested.foldl (fun acc kv => insertS acc kv.1 kv.2) m

/-- `m[k]` (comma-ok form): the value bound to `k`, if any. -/
def lookupS (m : Schema) (k : String) : Option (List Nat) :=
  (m.find? (fun kv => kv.1 = k)).map (fun kv => kv.2)

/-- `delete(m, k)`. -/
def eraseS (m : Schema) (k : String) : Schema :=
  m.filter (fun kv => kv.1 ≠ k)

/-- The field loop of `ParamStore.schema`, with the accumulated map
threaded through (`m` starts empty, `i` is the field counter).  A field
without the configured tag is skipped; a tagged unexported field aborts
with `field %q must be exported`; a (possibly pointer-wrapped) nested
struct type — other than `time.Time`, which the source special-cases as
a terminal type and the model represents by the separate constructor
`Ty.timeT` — is resolved recursively under the extended key prefix and
access path and merged; any other field is a leaf bound to
`keyPrefix + "/" + tagValue`.

The `append(index, i)` of the source is modelled as the functional
`idx ++ [i]`; the Go slice aliasing that `append` exhibits at nesting
depth ≥ 3 is modelled separately by `schemaAlias` below. -/
def schemaFields (tag pfx : String) (idx : List Nat) :
    Fields → Nat → Schema → Except String Schema
  | .nil, _, m => .ok m
  | .cons (.mk fname tags exported fty) rest, i, m =>
    match lookupTag tags tag with
    | none => schemaFields tag pfx idx rest (i + 1) m
    | some a =>
      if exported = false then .error ("field " ++ quoteS fname ++ " must be exported")
      else
        let name := pfx ++ "/" ++ a
        match fty with
        | .struct' gs =>
          match schemaFields tag name (idx ++ [i]) gs 0 [] with
          | .error e => .error e
          | .ok nested => schemaFields tag pfx idx rest (i + 1) (mergeS m nested)
        | .ptr (.struct' gs) =>
          match schemaFields tag name (idx ++ [i]) gs 0 [] with
          | .error e => .error e
          | .ok nested => schemaFields tag pfx idx rest (i + 1) (mergeS m nested)
        | _ => schemaFields tag pfx idx rest (i + 1) (insertS m name (idx ++ [i]))

/-- `ParamStore.schema(t, keyPrefix, index)` for a struct type. -/
def schemaT (tag : String) (t : Ty) (pfx : String) (idx : List Nat) :
    Except String Schema :=
  match t with
  | .struct' fs => schemaFields tag pfx idx fs 0 []
  | _ => .ok []

/-! ## The binder: `ParamStore.Read` -/

/-- `Fields` as a plain list, for indexing and statements. -/
def Fields.toList : Fields → List Field
  | .nil => []
  | .cons f fs => f :: Fields.toList fs

def Field.ty : Field → Ty
  | .mk _ _ _ t => t

def Field.tags : Field → List (String × String)
  | .mk _ ts _ _ => ts

def Field.exported : Field → Bool
  | .mk _ _ e _ => e

/-- Errors during the walk of one entry: a `setValue` error (wrapped by
`Read` with the key path), or a reflect panic — `Value.Field` called on
a non-struct value (which happens when the walk steps through an
already-allocated pointer, since the source dereferences only nil
pointers) or with an out-of-range index. -/
inductive WalkErr where
  | convErr (e : String)
  | panicked (e : String)

/-- The access-path walk of `Read` (lines 205–215): step into field `i`;
a nil pointer field is allocated to a zero value in place and
dereferenced; a non-nil pointer field is left as the pointer itself
(the source's `if` requires `IsNil`), so a further step or the final
`setValue` then fails.  At the end of the path `upd` (the `setValue`
call) produces the new leaf value, or an error that leaves the leaf
unchanged.  The updated value is returned even on error: allocations
and earlier mutations are never rolled back. -/
def walkSet (upd : Ty → Val → Except String Val) :
    Ty → Val → List Nat → Val × Option WalkErr
  | t, v, [] =>
    match upd t v with
    | .ok w => (w, none)
    | .error e => (v, some (.convErr e))
  | .struct' fs, .structV vs, i :: rest =>
    match (Fields.toList fs).get? i, vs.get? i with
    | some f, some fv =>
      match f.ty, fv with
      | .ptr e, .nilV =>
        let (w, r) := walkSet upd e (zeroVal e) rest
        (.structV (vs.set i (.ptrV w)), r)
      | ft, _ =>
        let (w, r) := walkSet upd ft fv rest
        (.structV (vs.set i w), r)
    | _, _ => (.structV vs, some (.panicked "reflect: Field index out of range"))
  | _, v, _ :: _ =>
    (v, some (.panicked "reflect: call of reflect.Value.Field on non-struct Value"))

/-- The errors `Read` can end with.  `panicked` models a reflect panic
(in Go the call crashes instead of returning). -/
inductive ReadErr where
  | schemaErr (e : String)
  | fieldErr (key : String) (e : String)
  | notFound (names : List String)
  | panicked (e : String)

/-- The entry loop of `Read` (lines 201–216): look the key up in the
schema (a missing key yields the zero access path `[]`, so the walk
stays at the root and `setValue` is applied to the root struct), delete
it, walk and assign.  A `setValue` error is wrapped with the key path
and stops the loop; the value mutated so far is kept. -/
def processParams (s : ParamStore) (ty : Ty) :
    Val → Schema → List GoParam → Val × Schema × Except ReadErr Unit
  | v, sch, [] => (v, sch, .ok ())
  | v, sch, p :: rest =>
    let index := (lookupS sch p.name).getD []
    let sch' := eraseS sch p.name
    match walkSet (fun t _fv => setValue s p t) ty v index with
    | (v', none) => processParams s ty v' sch' rest
    | (v', some (.convErr e)) => (v', sch', .error (.fieldErr p.name e))
    | (v', some (.panicked e)) => (v', sch', .error (.panicked e))

/-- `ParamStore.Read`, from the point where the target checks have
passed (`ty`/`v0` are the pointee struct type and value) and with the
client's response modelled as the list `resp` (the fetch capability is
external; its error path returns before any processing).  Returns the
final target value — Go mutates the caller's struct in place, so the
value is meaningful even when an error is returned — together with the
result: a schema error, the first wrapped conversion error, a
`NotFoundError` carrying every key path never matched by a response
entry, or success. -/
def readGo (s : ParamStore) (ty : Ty) (v0 : Val) (resp : List GoParam) :
    Val × Except ReadErr Unit :=
  match schemaT s.tag ty s.pfx [] with
  | .error e => (v0, .error (.schemaErr e))
  | .ok sch =>
    match processParams s ty v0 sch resp with
    | (v, sch', .ok ()) =>
      if sch'.isEmpty then (v, .ok ())
      else (v, .error (.notFound (sch'.map (fun kv => kv.1))))
    | (v, _, .error e) => (v, .error e)

/-! ## Go slice semantics of `append(index, i)` in `schema`

`ParamStore.schema` threads one `[]int` slice through its recursion and
evaluates `append(index, i)` once per tagged field.  A Go slice is a
view `(array, len)` into a shared backing array with a capacity;
`append` writes in place when `len < cap` and allocates (doubling the
capacity, starting from 1 for 8-byte elements) otherwise.  At nesting
depth 3 the threaded slice has `len 3, cap 4`, so sibling fields append
in place into the same backing array and overwrite each other's stored
access paths.  This model captures exactly that mechanism; the
functional `schemaFields` above is the aliasing-free reading. -/

/-- A Go slice header: backing array id and length (offset is always 0
in `schema`'s usage). -/
structure GoSlice where
  arr : Nat
  len : Nat
  deriving DecidableEq, Repr

/-- The store of backing arrays, indexed by id; a cell list's length is
the array's capacity. -/
abbrev Heap := List (List Nat)

def heapGet (h : Heap) (i : Nat) : List Nat := (h.get? i).getD []

/-- `append(s, x)` for `[]int`: in place when capacity remains,
otherwise a fresh array of doubled capacity (1 from empty — the size
classes for 8-byte elements make the doubled request exact at the
small sizes reached here). -/
def goAppend (h : Heap) (s : GoSlice) (x : Nat) : Heap × GoSlice :=
  let cells := heapGet h s.arr
  if s.len < cells.length then
    (h.set s.arr (cells.set s.len x), ⟨s.arr, s.len + 1⟩)
  else
    let newcap := max 1 (2 * cells.length)
    let newCells := cells.take s.len ++ [x] ++ List.replicate (newcap - (s.len + 1)) 0
    (h ++ [newCells], ⟨h.length, s.len + 1⟩)

/-- The `[]int` a slice header denotes: the first `len` cells of its
backing array.  `Read` ranges over this when walking an access path. -/
def matSlice (h : Heap) (s : GoSlice) : List Nat := (heapGet h s.arr).take s.len

def insertSA (m : List (String × GoSlice)) (k : String) (v : GoSlice) :
    List (String × GoSlice) :=
  if m.any (fun kv => kv.1 = k) then
    m.map (fun kv => if kv.1 = k then (k, v) else kv)
  else m ++ [(k, v)]

def mergeSA (m nested : List (String × GoSlice)) : List (String × GoSlice) :=
  nested.foldl (fun acc kv => insertSA acc kv.1 kv.2) m

def lookupSA (m : List (String × GoSlice)) (k : String) : Option GoSlice :=
  (m.find? (fun kv => kv.1 = k)).map (fun kv => kv.2)

/-- `ParamStore.schema` with Go's `append` semantics made explicit: the
same control flow as `schemaFields`, with the access-path slice headers
and the heap of backing arrays threaded through. -/
def schemaFieldsA (tag pfx : String) (idx : GoSlice) :
    Fields → Nat → Heap → List (String × GoSlice) →
    Except String (Heap × List (String × GoSlice))
  | .nil, _, h, m => .ok (h, m)
  | .cons (.mk fname tags exported fty) rest, i, h, m =>
    match lookupTag tags tag with
    | none => schemaFieldsA tag pfx idx rest (i + 1) h m
    | some a =>
      if exported = false then .error ("field " ++ quoteS fname ++ " must be exported")
      else
        let name := pfx ++ "/" ++ a
        match fty with
        | .struct' gs =>
          match goAppend h idx i with
          | (h1, s1) =>
            match schemaFieldsA tag name s1 gs 0 h1 [] with
            | .error e => .error e
            | .ok (h2, nested) => schemaFieldsA tag pfx idx rest (i + 1) h2 (mergeSA m nested)
        | .ptr (.struct' gs) =>
          match goAppend h idx i with
          | (h1, s1) =>
            match schemaFieldsA tag name s1 gs 0 h1 [] with
            | .error e => .error e
            | .ok (h2, nested) => schemaFieldsA tag pfx idx rest (i + 1) h2 (mergeSA m nested)
        | _ =>
          match goAppend h idx i with
          | (h1, s1) => schemaFieldsA tag pfx idx rest (i + 1) h1 (insertSA m name s1)

/-- `schema(t, prefix, nil)` under explicit slice semantics: the nil
`[]int` is the empty view of a zero-capacity array. -/
def schemaTA (tag : String) (t : Ty) (pfx : String) :
    Except String (Heap × List (String × GoSlice)) :=
  match t with
  | .struct' fs => schemaFieldsA tag pfx ⟨0, 0⟩ fs 0 [[]] []
  | _ => .ok ([[]], [])

/-! ## Concrete fixtures -/

/-- A field tagged with the default `ssm` tag, exported. -/
def fld (n tagv : String) (t : Ty) : Field := .mk n [("ssm", tagv)] true t

/-- A `ParamStore` with the construction defaults (no options). -/
def storeDefault : ParamStore := ⟨"", "ssm", [], none⟩

/-- A `ParamStore` with `WithParseNumber()` applied. -/
def storeNumber : ParamStore := ⟨"", "ssm", [.number], none⟩

/-- `struct { Foo string `ssm:"foo"` }`. -/
def tyFoo : Ty := .struct' (.cons (fld "Foo" "foo" .string) .nil)

/-- `struct { A string `ssm:"a"`; B string `ssm:"b"` }`. -/
def tyAB : Ty := .struct' (.cons (fld "A" "a" .string) (.cons (fld "B" "b" .string) .nil))

/-- A record nested three levels deep whose innermost struct has two
annotated leaves:
`struct { A struct { B struct { C struct { X string `ssm:"x"`; Y string `ssm:"y"` } `ssm:"c"` } `ssm:"b"` } `ssm:"a"` }`. -/
def tyDeep : Ty :=
  .struct' (.cons (fld "A" "a" (.struct' (.cons (fld "B" "b" (.struct' (.cons (fld "C" "c"
    (.struct' (.cons (fld "X" "x" .string) (.cons (fld "Y" "y" .string) .nil)))) .nil))) .nil))) .nil)

/-- Two pointer-to-struct fields, the first with two annotated leaves:
`struct { P *struct { A string `ssm:"a"`; B string `ssm:"b"` } `ssm:"p"`; Q *struct { C string `ssm:"c"` } `ssm:"q"` }`. -/
def tyPtr2 : Ty := .struct'
  (.cons (fld "P" "p" (.ptr (.struct' (.cons (fld "A" "a" .string) (.cons (fld "B" "b" .string) .nil)))))
  (.cons (fld "Q" "q" (.ptr (.struct' (.cons (fld "C" "c" .string) .nil))))
  .nil))

/-! ## Converter-chain lemmas -/

theorem convApply_slice (c : Converter) (p : GoParam) (e : Ty) :
    convApply c p (.slice e) = none := by
  cases c <;> rfl

theorem convApply_string (c : Converter) (p : GoParam) :
    convApply c p .string = none := by
  cases c <;> rfl

theorem convApply_struct (c : Converter) (p : GoParam) (fs : Fields) :
    convApply c p (.struct' fs) = none := by
  cases c <;> rfl

/-- No registered converter can handle a slice target: the three
closures the options can register test for `time.Duration`, `time.Time`
and the int/float kinds respectively. -/
theorem runConvs_slice (cs : List Converter) (p : GoParam) (e : Ty) :
    runConvs cs p (.slice e) = none := by
  induction cs with
  | nil => rfl
  | cons c cs ih => simp [runConvs, convApply_slice, ih]

/-- No registered converter handles a plain string target. -/
theorem runConvs_string (cs : List Converter) (p : GoParam) :
    runConvs cs p .string = none := by
  induction cs with
  | nil => rfl
  | cons c cs ih => simp [runConvs, convApply_string, ih]

/-- No registered converter handles a struct target. -/
theorem runConvs_struct (cs : List Converter) (p : GoParam) (fs : Fields) :
    runConvs cs p (.struct' fs) = none := by
  induction cs with
  | nil => rfl
  | cons c cs ih => simp [runConvs, convApply_struct, ih]

/-- On integer-kind targets any chain containing the number converter
acts exactly as the number converter: the duration/time closures pass
(their exact-type tests fail on an int kind) and a second number
converter would behave identically. -/
theorem runConvs_number_int (cs : List Converter) (h : Converter.number ∈ cs)
    (p : GoParam) (w : IntWidth) :
    runConvs cs p (.intT w) = convApply .number p (.intT w) := by
  induction cs with
  | nil => cases h
  | cons c cs ih =>
    cases c with
    | duration =>
      have h' : Converter.number ∈ cs := by
        rcases List.mem_cons.mp h with h' | h'
        · cases h'
        · exact h'
      simp [runConvs, convApply, ih h']
    | time layout =>
      have h' : Converter.number ∈ cs := by
        rcases List.mem_cons.mp h with h' | h'
        · cases h'
        · exact h'
      simp [runConvs, convApply, ih h']
    | number => rfl

/-- One-step unfolding of `setValue`, with the fuel counter eliminated:
the recursive occurrence in the slice branch is `setValue` itself at the
element type. -/
theorem setValue_unfold (s : ParamStore) (p : GoParam) (t : Ty) : setValue s p t =
    match runConvs s.converters p t with
    | some (.error e) => .error e
    | some (.ok v) => .ok v
    | none =>
      match t with
      | .string =>
        match p.ptype with
        | .string => .ok (.str p.value)
        | .secureString => .ok (.str p.value)
        | _ => .error ("cannot assign " ++ ptypeName p.ptype ++ " to " ++ tyName t)
      | .slice elem =>
        if p.ptype ≠ .stringList then
          .error ("cannot set " ++ ptypeName p.ptype ++ " to " ++ tyName t)
        else
          match setSliceWith (fun part => setValue s ⟨"", .string, part⟩ elem)
              (splitComma p.value) 0 with
          | .error e => .error e
          | .ok vs => .ok (.sliceV vs)
      | t' => .error ("unsupported: " ++ tyKind t') := by
  cases t <;> rfl

/-! ## C1 — schema resolution and access-path uniqueness -/

/-- C1: the claim states that schema resolution maps each of the N key
paths back uniquely to the access path of its originating field, at any
nesting depth.  The functional reading of the source (first conjunct)
does produce the two distinct access paths for `tyDeep`'s two innermost
leaves — but the source threads one `[]int` through `append(index, i)`,
and at nesting depth 3 that slice has length 3 in a backing array of
capacity 4, so the two sibling appends write the same array cell: under
Go's append semantics (second conjunct) both key paths come to denote
`[0, 0, 0, 1]`, the access path of the *second* leaf, and the mapping is
no longer unique — `/a/b/c/x`'s value is silently bound to the `Y`
field.  The claim (and the spec's uniqueness property) is the evident
intent; the aliasing is a slip in the code. -/
theorem c1_alias_overwrites_access_paths :
    schemaT "ssm" tyDeep "" [] =
      .ok [("/a/b/c/x", [0, 0, 0, 0]), ("/a/b/c/y", [0, 0, 0, 1])]
    ∧ (schemaTA "ssm" tyDeep "").map
        (fun hm => hm.2.map (fun kv => (kv.1, matSlice hm.1 kv.2)))
      = .ok [("/a/b/c/x", [0, 0, 0, 1]), ("/a/b/c/y", [0, 0, 0, 1])] :=
  ⟨rfl, rfl⟩

/-! ## C3 — the default client is never installed -/

/-- C3: the claim states that `NewParamStore` without `WithClient` sets
the instance's client to the default platform client.  In the source,
when `s.cli == nil` and `external.LoadDefaultAWSConfig()` succeeds, the
call `WithClient(ssm.New(cfg))` merely *constructs* an `Option` value
and discards it — it is never applied to `s` — so the returned store's
client is still nil (and a subsequent `Read` would dereference it).
Evaluating the model at the failing input (no options, config load
succeeds) shows the returned store equals the all-defaults store, whose
`cli` is `none`. -/
theorem c3_default_client_never_set :
    NewParamStore [] (.ok ⟨⟩) = .ok ⟨"", "ssm", [], none⟩
    ∧ (⟨"", "ssm", [], none⟩ : ParamStore).cli = none :=
  ⟨rfl, rfl⟩

/-! ## C8 — pointer allocation during the walk -/

/-- C8: the claim states that during `Read`'s walk every nil pointer
field encountered is allocated in place, and that an optional nested
field stays unallocated iff none of its descendant key paths appears
among the returned entries.  The walk (lines 206–212) dereferences a
pointer field only when it is nil; when a *second* returned entry walks
through the pointer allocated by the first, the `IsNil` guard fails, the
pointer is not dereferenced, and the subsequent `field.Field(i)` is
called on a ptr `reflect.Value` — a reflect panic.  Evaluating the model
at `tyPtr2` with entries `/p/a`, `/p/b`, `/q/c`: the first entry
allocates `P` and assigns `A`; the second panics; `Q` is left
unallocated (`nilV`) even though its descendant key `/q/c` is among the
returned entries, contradicting the claimed equivalence. -/
theorem c8_second_descendant_key_panics :
    readGo storeDefault tyPtr2 (zeroVal tyPtr2)
        [⟨"/p/a", .string, "1"⟩, ⟨"/p/b", .string, "2"⟩, ⟨"/q/c", .string, "3"⟩]
      = (.structV [.ptrV (.structV [.str "1", .str ""]), .nilV],
         .error (.panicked "reflect: call of reflect.Value.Field on non-struct Value")) :=
  rfl

/-! ## C2 — entries whose key is not in the schema -/

/-- An unmatched erase is the identity on the schema. -/
theorem eraseS_of_lookup_none (sch : Schema) (k : String) (h : lookupS sch k = none) :
    eraseS sch k = sch := by
  unfold eraseS
  apply List.filter_eq_self.mpr
  intro kv hkv
  have hfind : sch.find? (fun kv => kv.1 = k) = none := by
    cases hf : sch.find? (fun kv => kv.1 = k) with
    | none => rfl
    | some x => unfold lookupS at h; rw [hf] at h; cases h
  have hne := List.find?_eq_none.mp hfind kv hkv
  simp at hne ⊢
  exact hne

/-- C2: counterexample to "an entry whose key path is absent from the
schema mapping is ignored and does not make `Read` return an error".
With target `struct { Foo string `ssm:"foo"` }` and response entries
`/bogus` then `/foo`, the unknown key's zero access path `[]` leaves the
walk at the root struct, `setValue` on the struct kind fails with
`unsupported: struct`, `Read` returns that error wrapped with `/bogus`,
and the remaining entry `/foo` is never processed (`Foo` stays `""`). -/
theorem c2_counterexample :
    readGo storeDefault tyFoo (zeroVal tyFoo)
        [⟨"/bogus", .string, "x"⟩, ⟨"/foo", .string, "bar"⟩]
      = (.structV [.str ""], .error (.fieldErr "/bogus" "unsupported: struct")) :=
  rfl

/-- C2 (amended): a returned entry whose key path is absent from the
schema mapping is *not* ignored: `schema[name]` yields the zero value
`nil`, the walk stays at the root struct, and `setValue` on the struct
kind fails (no registered converter handles a struct), so `Read` returns
`unsupported: struct` wrapped with the entry's key, aborting the
remaining entries; the target and the schema are left unchanged by the
entry itself. -/
theorem c2_unknown_key_not_ignored (s : ParamStore) (fs : Fields) (v : Val) (sch : Schema)
    (p : GoParam) (rest : List GoParam) (h : lookupS sch p.name = none) :
    processParams s (.struct' fs) v sch (p :: rest)
      = (v, sch, .error (.fieldErr p.name "unsupported: struct")) := by
  have hsv : setValue s p (.struct' fs) = .error "unsupported: struct" := by
    rw [setValue_unfold]
    simp [runConvs_struct, tyKind]
  simp [processParams, h, walkSet, hsv, eraseS_of_lookup_none sch p.name h]

/-- C2 (amended) witness: the general statement evaluated at the
`tyFoo` schema and an unknown `/bogus` entry. -/
theorem c2_witness :
    lookupS [("/foo", [0])] "/bogus" = none
    ∧ processParams storeDefault (.struct' (.cons (fld "Foo" "foo" .string) .nil))
        (.structV [.str ""]) [("/foo", [0])] [⟨"/bogus", .string, "x"⟩]
      = (.structV [.str ""], [("/foo", [0])], .error (.fieldErr "/bogus" "unsupported: struct")) :=
  ⟨rfl, c2_unknown_key_not_ignored storeDefault (.cons (fld "Foo" "foo" .string) .nil)
    (.structV [.str ""]) [("/foo", [0])] ⟨"/bogus", .string, "x"⟩ [] rfl⟩

/-! ## C5 — slice conversion semantics -/

/-- C5: for any converter chain, a delimited-list entry `"a,b,c"` into a
string-slice field yields exactly `["a", "b", "c"]` in order (payload
split on `,`, each element converted as a synthetic plain-string entry),
and a plain-string or secret-string entry into *any* sequence field is
rejected — no implicit single-element wrapping. -/
theorem c5_slice_semantics (s : ParamStore) (n pay : String) (e : Ty) :
    setValue s ⟨n, .stringList, "a,b,c"⟩ (.slice .string)
      = .ok (.sliceV [.str "a", .str "b", .str "c"])
    ∧ setValue s ⟨n, .string, pay⟩ (.slice e)
      = .error ("cannot set String to " ++ tyName (.slice e))
    ∧ setValue s ⟨n, .secureString, pay⟩ (.slice e)
      = .error ("cannot set SecureString to " ++ tyName (.slice e)) := by
  refine ⟨?_, ?_, ?_⟩
  · rw [setValue_unfold]
    simp [runConvs_slice, splitComma, splitCommaL, setSliceWith, setValue_unfold, runConvs_string]
  · rw [setValue_unfold]
    simp [runConvs_slice, ptypeName]
  · rw [setValue_unfold]
    simp [runConvs_slice, ptypeName]

/-! ## C7 — `WithParseNumber` on integer targets -/

/-- Balanced-modulus truncation is the identity exactly on the values
that fit the target width. -/
theorem bmod_eq_self_of_width (v : Int) (w : IntWidth)
    (h1 : -(2 ^ (w.bits - 1)) ≤ v) (h2 : v < 2 ^ (w.bits - 1)) :
    Int.bmod v (2 ^ w.bits) = v := by
  cases w <;> (simp [IntWidth.bits] at h1 h2 ⊢) <;> (norm_num [Int.bmod]; omega)

/-- C7: counterexample to "a successful conversion stores exactly the
signed decimal integer denoted by the payload parsed per the target
field's width".  The source parses with `strconv.ParseInt(s, 10, 64)` —
64-bit width regardless of the target — and `reflect.Value.SetInt`
truncates silently, so payload `"300"` into an `int8` field succeeds and
stores `44` (= 300 mod 256, two's complement), where parsing per the
8-bit width would be a range error and the denoted integer is 300. -/
theorem c7_counterexample :
    setValue storeNumber ⟨"k", .string, "300"⟩ (.intT .int8) = .ok (.intV 44)
    ∧ goParseInt "300" = .ok 300
    ∧ (44 : Int) ≠ 300 :=
  ⟨rfl, rfl, by decide⟩

/-- C7 (amended): with the number converter registered (anywhere in the
chain), an integer-kind target and a plain-string payload: the payload
is parsed as a *64-bit* signed decimal integer and the result is stored
truncated to the target width by two's-complement wraparound — hence
exactly the denoted integer whenever it fits the width — and a parse
failure yields an error reporting the offending substring and the
underlying cause. -/
theorem c7_parse_number_truncates (s : ParamStore) (h : Converter.number ∈ s.converters)
    (w : IntWidth) (n pay : String) :
    (∀ v : Int, goParseInt pay = .ok v →
        setValue s ⟨n, .string, pay⟩ (.intT w) = .ok (.intV (Int.bmod v (2 ^ w.bits))))
    ∧ (∀ v : Int, goParseInt pay = .ok v → -(2 ^ (w.bits - 1)) ≤ v → v < 2 ^ (w.bits - 1) →
        setValue s ⟨n, .string, pay⟩ (.intT w) = .ok (.intV v))
    ∧ (∀ ne : NumError, goParseInt pay = .error ne →
        setValue s ⟨n, .string, pay⟩ (.intT w)
          = .error ("parse " ++ quoteS ne.num ++ " as int: " ++ ne.err)) := by
  have hbase : ∀ r, goParseInt pay = r →
      setValue s ⟨n, .string, pay⟩ (.intT w)
        = (match r with
           | .ok v => .ok (.intV (Int.bmod v (2 ^ w.bits)))
           | .error ne => .error ("parse " ++ quoteS ne.num ++ " as int: " ++ ne.err)) := by
    intro r hr
    rw [setValue_unfold, runConvs_number_int s.converters h]
    simp [convApply, hr]
    cases r <;> simp
  refine ⟨?_, ?_, ?_⟩
  · intro v hv; simpa using hbase (.ok v) hv
  · intro v hv hlo hhi
    have := hbase (.ok v) hv
    simpa [bmod_eq_self_of_width v w hlo hhi] using this
  · intro ne hne; simpa using hbase (.error ne) hne

/-- C7 (amended) witness: the number converter of `storeNumber` stores
`42` for payload `"42"` into an `int64` field, and reports the offending
substring for payload `"alice"`. -/
theorem c7_witness :
    Converter.number ∈ storeNumber.converters
    ∧ setValue storeNumber ⟨"k", .string, "42"⟩ (.intT .int64) = .ok (.intV 42)
    ∧ setValue storeNumber ⟨"k", .string, "alice"⟩ (.intT .int64)
      = .error ("parse " ++ quoteS "alice" ++ " as int: " ++ "invalid syntax") :=
  ⟨by simp [storeNumber],
   (c7_parse_number_truncates storeNumber (by simp [storeNumber]) .int64 "k" "42").2.1
     42 rfl (by norm_num [IntWidth.bits]) (by norm_num [IntWidth.bits]),
   (c7_parse_number_truncates storeNumber (by simp [storeNumber]) .int64 "k" "alice").2.2
     ⟨"alice", "invalid syntax"⟩ rfl⟩

/-! ## C10 — the empty delimited list -/

/-- C10: a delimited-list entry with empty payload into a slice field
splits into the single part `""` (Go's `strings.Split("", ",")` is
`[""]`), so a `[]string` target receives `[""]` — a slice of length one
holding the empty string, not an empty slice and not an error — and in
general the single element is converted from the empty string at index
0. -/
theorem c10_empty_stringlist_singleton (s : ParamStore) (n : String) (e : Ty) :
    setValue s ⟨n, .stringList, ""⟩ (.slice .string) = .ok (.sliceV [.str ""])
    ∧ setValue s ⟨n, .stringList, ""⟩ (.slice e)
      = (match setValue s ⟨"", .string, ""⟩ e with
         | .ok v => .ok (.sliceV [v])
         | .error e' => .error ("set slice index 0: " ++ e')) := by
  constructor
  · rw [setValue_unfold]
    simp [runConvs_slice, splitComma, splitCommaL, setSliceWith, setValue_unfold, runConvs_string]
  · rw [setValue_unfold]
    simp only [runConvs_slice, splitComma, splitCommaL, setSliceWith]
    cases h : setValue s ⟨"", .string, ""⟩ e <;>
      simp [h, splitComma, splitCommaL, setSliceWith, show toString (0 : Nat) = "0" from rfl]

/-! ## C4 / C6 — entry-loop bookkeeping of `Read` -/

/-- The entry loop splits over list append: an error in the first part
short-circuits, success continues with the mutated value and schema. -/
theorem processParams_append (s : ParamStore) (ty : Ty) (v : Val) (sch : Schema)
    (l1 l2 : List GoParam) :
    processParams s ty v sch (l1 ++ l2)
      = (match processParams s ty v sch l1 with
         | (v', sch', .ok ()) => processParams s ty v' sch' l2
         | (v', sch', .error e) => (v', sch', .error e)) := by
  induction l1 generalizing v sch with
  | nil => simp [processParams]
  | cons p rest ih =>
    simp only [List.cons_append, processParams]
    cases hw : walkSet (fun t _fv => setValue s p t) ty v ((lookupS sch p.name).getD []) with
    | mk v' r =>
      cases r with
      | none => simp [ih]
      | some e => cases e <;> simp

/-- When the entry loop finishes without an error, the keys remaining in
the schema are exactly the initial keys matched by no response entry. -/
theorem processParams_ok_schema (s : ParamStore) (ty : Ty) (v : Val) (sch : Schema)
    (resp : List GoParam)
    (h : (processParams s ty v sch resp).2.2 = .ok ()) :
    (processParams s ty v sch resp).2.1
      = sch.filter (fun kv => resp.all (fun q => kv.1 ≠ q.name)) := by
  induction resp generalizing v sch with
  | nil => simp [processParams, List.filter_eq_self]
  | cons p rest ih =>
    rcases hw : walkSet (fun t _fv => setValue s p t) ty v ((lookupS sch p.name).getD []) with ⟨v', r⟩
    cases r with
    | none =>
      have hstep : processParams s ty v sch (p :: rest)
          = processParams s ty v' (eraseS sch p.name) rest := by
        simp [processParams, hw]
      rw [hstep] at h ⊢
      rw [ih v' (eraseS sch p.name) h]
      unfold eraseS
      simp [List.filter_filter, List.all_cons, Bool.and_comm]
    | some e =>
      cases e <;> (rw [show processParams s ty v sch (p :: rest)
          = ((processParams s ty v sch (p :: rest)).1,
             (processParams s ty v sch (p :: rest)).2.1,
             (processParams s ty v sch (p :: rest)).2.2) from rfl] at h) <;>
        simp [processParams, hw] at h

/-- C4: when every returned entry was processed without error and at
least one resolved key path was matched by no returned entry, `Read`
fails with `NotFoundError` carrying exactly the unmatched key paths —
all of them — while the first component shows the fields assigned from
the returned entries are kept. -/
theorem c4_notfound_all_missing (s : ParamStore) (ty : Ty) (v0 : Val) (resp : List GoParam)
    (sch : Schema) (hsch : schemaT s.tag ty s.pfx [] = .ok sch)
    (hok : (processParams s ty v0 sch resp).2.2 = .ok ())
    (hne : sch.filter (fun kv => resp.all (fun q => kv.1 ≠ q.name)) ≠ []) :
    readGo s ty v0 resp
      = ((processParams s ty v0 sch resp).1,
         .error (.notFound ((sch.filter (fun kv => resp.all (fun q => kv.1 ≠ q.name))).map
           (fun kv => kv.1)))) := by
  have hsch2 := processParams_ok_schema s ty v0 sch resp hok
  have hemp : (sch.filter (fun kv => resp.all (fun q => kv.1 ≠ q.name))).isEmpty = false := by
    cases hh : sch.filter (fun kv => resp.all (fun q => kv.1 ≠ q.name)) with
    | nil => exact absurd hh hne
    | cons a l => rfl
  simp only [readGo, hsch]
  rcases hp : processParams s ty v0 sch resp with ⟨v, sch', r⟩
  rw [hp] at hok hsch2
  have hr : r = .ok () := hok
  subst hr
  have hs' : sch' = sch.filter (fun kv => resp.all (fun q => kv.1 ≠ q.name)) := hsch2
  subst hs'
  simp only [hemp]
  rfl

/-- C4 witness: target `{A, B}` with only `/a` returned — `A` is
assigned and `Read` fails with `NotFoundError` listing exactly `/b`. -/
theorem c4_witness :
    (processParams storeDefault tyAB (zeroVal tyAB) [("/a", [0]), ("/b", [1])]
        [⟨"/a", .string, "x"⟩]).2.2 = .ok ()
    ∧ readGo storeDefault tyAB (zeroVal tyAB) [⟨"/a", .string, "x"⟩]
      = (.structV [.str "x", .str ""], .error (.notFound ["/b"])) :=
  ⟨rfl,
   (c4_notfound_all_missing storeDefault tyAB (zeroVal tyAB) [⟨"/a", .string, "x"⟩]
     [("/a", [0]), ("/b", [1])] rfl rfl (by decide)).trans rfl⟩

/-- C6: when `setValue` fails for a returned entry, `Read` returns that
conversion error wrapped with the entry's key path; the remaining
entries are never processed (the result does not depend on `post`), no
`NotFoundError` is reported in that call even though unmatched keys may
remain, and everything assigned while processing the earlier entries
(and the failing entry's own pointer allocations) is kept — there is no
rollback. -/
theorem c6_conversion_error_aborts (s : ParamStore) (ty : Ty) (v0 v1 v2 : Val)
    (sch sch1 : Schema) (pre post : List GoParam) (bad : GoParam) (e : String)
    (hsch : schemaT s.tag ty s.pfx [] = .ok sch)
    (hpre : processParams s ty v0 sch pre = (v1, sch1, .ok ()))
    (hbad : walkSet (fun t _fv => setValue s bad t) ty v1 ((lookupS sch1 bad.name).getD [])
      = (v2, some (.convErr e))) :
    readGo s ty v0 (pre ++ bad :: post) = (v2, .error (.fieldErr bad.name e)) := by
  simp only [readGo, hsch]
  rw [processParams_append, hpre]
  simp [processParams, hbad]

/-- C6 witness: `{A, B}` with a delimited list sent for the string field
`/a`: `Read` stops at the wrapped `/a` error, `B` is never assigned
(`post` contains its entry) and no `NotFoundError` is raised. -/
theorem c6_witness :
    processParams storeDefault tyAB (zeroVal tyAB) [("/a", [0]), ("/b", [1])] []
      = (zeroVal tyAB, [("/a", [0]), ("/b", [1])], .ok ())
    ∧ readGo storeDefault tyAB (zeroVal tyAB) [⟨"/a", .stringList, "x"⟩, ⟨"/b", .string, "y"⟩]
      = (.structV [.str "", .str ""], .error (.fieldErr "/a" "cannot assign StringList to string")) :=
  ⟨rfl,
   c6_conversion_error_aborts storeDefault tyAB (zeroVal tyAB) (zeroVal tyAB)
     (.structV [.str "", .str ""]) [("/a", [0]), ("/b", [1])] [("/a", [0]), ("/b", [1])]
     [] [⟨"/b", .string, "y"⟩] ⟨"/a", .stringList, "x"⟩
     "cannot assign StringList to string" rfl rfl rfl⟩

/-! ## C9 — `WithPrefix` normalization -/

theorem goHasPfxL_iff (s p : List Char) : goHasPfxL s p = true ↔ p <+: s := by
  induction p generalizing s with
  | nil => cases s <;> simp [goHasPfxL]
  | cons d ds ih =>
    cases s with
    | nil => simp [goHasPfxL]
    | cons c cs =>
      simp only [goHasPfxL, Bool.and_eq_true, decide_eq_true_eq, ih, List.cons_prefix_cons]
      exact and_congr eq_comm Iff.rfl

theorem goHasSuffixL_iff (s suf : List Char) : goHasSuffixL s suf = true ↔ suf <:+ s := by
  rw [goHasSuffixL, goHasPfxL_iff, List.reverse_prefix]

theorem goTrimSuffixL_of_suffix (t suf : List Char) :
    goTrimSuffixL (t ++ suf) suf = t := by
  unfold goTrimSuffixL
  rw [if_pos (by rw [goHasSuffixL_iff]; exact ⟨t, rfl⟩)]
  simp [List.take_left]

theorem goTrimSuffixL_of_not_suffix (s suf : List Char) (h : ¬ suf <:+ s) :
    goTrimSuffixL s suf = s := by
  unfold goTrimSuffixL
  rw [if_neg (by rw [goHasSuffixL_iff]; exact h)]

/-- The normalization of `WithPrefix` at the character-list level: for
an input that is nonempty, not `"/"`, and does not end in `"//"`, the
result starts with `/` and does not end with `/`. -/
theorem normPfxL_spec (l : List Char)
    (h1 : l ≠ []) (h2 : l ≠ ['/']) (h3 : ¬ (['/', '/'] <:+ l)) :
    goHasPfxL (goTrimSuffixL (if goHasPfxL l ['/'] then l else '/' :: l) ['/']) ['/'] = true
    ∧ ¬ (['/'] <:+ goTrimSuffixL (if goHasPfxL l ['/'] then l else '/' :: l) ['/']) := by
  set q := if goHasPfxL l ['/'] then l else '/' :: l with hqdef
  obtain ⟨r, hq, hr⟩ : ∃ r, q = '/' :: r ∧ r ≠ [] := by
    rcases l with _ | ⟨c, cs⟩
    · exact absurd rfl h1
    · by_cases hc : c = '/'
      · subst hc
        have : goHasPfxL ('/' :: cs) ['/'] = true := by simp [goHasPfxL]
        refine ⟨cs, by simp [hqdef, this], ?_⟩
        intro h
        exact h2 (by rw [h])
      · have : goHasPfxL (c :: cs) ['/'] = false := by simp [goHasPfxL, hc]
        exact ⟨c :: cs, by simp [hqdef, this], by simp⟩
  have hq2 : ¬ (['/', '/'] <:+ q) := by
    rcases l with _ | ⟨c, cs⟩
    · exact absurd rfl h1
    · by_cases hc : c = '/'
      · subst hc
        have : goHasPfxL ('/' :: cs) ['/'] = true := by simp [goHasPfxL]
        rw [hqdef, if_pos this]
        exact h3
      · have hf : goHasPfxL (c :: cs) ['/'] = false := by simp [goHasPfxL, hc]
        rw [hqdef, if_neg (by simp [hf])]
        intro hsuf
        rcases List.suffix_cons_iff.mp hsuf with he | hsuf'
        · exact h2 (by injection he with _ h'; rw [h'])
        · exact h3 hsuf'
  by_cases hsuf : ['/'] <:+ q
  · obtain ⟨t, ht⟩ := hsuf
    have htrim : goTrimSuffixL q ['/'] = t := by rw [← ht, goTrimSuffixL_of_suffix]
    have htne : t ≠ [] := by
      intro h0
      rw [h0] at ht
      simp at ht
      rw [hq] at ht
      injection ht with _ h'
      exact hr h'.symm
    obtain ⟨a, t', hat⟩ := List.exists_cons_of_ne_nil htne
    have ha : a = '/' := by
      rw [hat] at ht
      rw [hq] at ht
      simp at ht
      exact ht.1
    constructor
    · rw [htrim, hat, ha]; simp [goHasPfxL]
    · rw [htrim]
      rintro ⟨u, hu⟩
      apply hq2
      refine ⟨u, ?_⟩
      rw [← ht, ← hu]
      simp
  · have htrim : goTrimSuffixL q ['/'] = q := goTrimSuffixL_of_not_suffix q ['/'] hsuf
    constructor
    · rw [htrim, hq]; simp [goHasPfxL]
    · rw [htrim]; exact hsuf

/-- C9: counterexample to "for every string passed to `WithPrefix`, the
stored prefix starts with `/` and does not end with `/`".  The inputs
`""` and `"/"` normalize to the empty prefix (which does not start with
`/`), and `"a//"` normalizes to `"/a/"` (which ends with `/`, since
`TrimSuffix` removes only one trailing slash). -/
theorem c9_counterexample :
    (applyOpt storeDefault (.withPfxOpt "")).pfx = ""
    ∧ goHasPfx "" "/" = false
    ∧ (applyOpt storeDefault (.withPfxOpt "/")).pfx = ""
    ∧ (applyOpt storeDefault (.withPfxOpt "a//")).pfx = "/a/"
    ∧ goHasSuffix "/a/" "/" = true :=
  ⟨rfl, rfl, rfl, rfl, rfl⟩

/-- C9 (amended): for every string passed to `WithPrefix` that is
nonempty, not `"/"`, and does not end in `"//"`, the stored prefix
starts with `/` and does not end with `/` (the excluded inputs `""` and
`"/"` store the empty prefix, and an input ending in `"//"` keeps one
trailing slash). -/
theorem c9_normalized_pfx (s : ParamStore) (p : String)
    (h1 : p ≠ "") (h2 : p ≠ "/") (h3 : goHasSuffix p "//" = false) :
    goHasPfx (applyOpt s (.withPfxOpt p)).pfx "/" = true
    ∧ goHasSuffix (applyOpt s (.withPfxOpt p)).pfx "/" = false := by
  obtain ⟨l⟩ := p
  have hl1 : l ≠ [] := fun h => h1 (by rw [h])
  have hl2 : l ≠ ['/'] := fun h => h2 (by rw [h])
  have hl3 : ¬ (['/', '/'] <:+ l) := by
    intro hsuf
    rw [show (goHasSuffix ⟨l⟩ "//") = goHasSuffixL l ['/', '/'] from rfl] at h3
    rw [(goHasSuffixL_iff l ['/', '/']).mpr hsuf] at h3
    cases h3
  have hmain := normPfxL_spec l hl1 hl2 hl3
  have hdata : (applyOpt s (.withPfxOpt ⟨l⟩)).pfx
      = ⟨goTrimSuffixL (if goHasPfxL l ['/'] then l else '/' :: l) ['/']⟩ := by
    show goTrimSuffix (if goHasPfxL l ['/'] then ⟨l⟩ else "/" ++ ⟨l⟩) "/" = _
    cases goHasPfxL l ['/'] with
    | true => rfl
    | false => rfl
  rw [hdata]
  refine ⟨hmain.1, ?_⟩
  show goHasSuffixL (goTrimSuffixL (if goHasPfxL l ['/'] then l else '/' :: l) ['/']) ['/'] = false
  cases hb : goHasSuffixL (goTrimSuffixL (if goHasPfxL l ['/'] then l else '/' :: l) ['/']) ['/'] with
  | false => rfl
  | true => exact absurd ((goHasSuffixL_iff _ _).mp hb) hmain.2

/-- C9 (amended) witness: `WithPrefix("dev")` stores `/dev`, which
starts with `/` and does not end with `/`. -/
theorem c9_witness :
    ("dev" : String) ≠ "" ∧ ("dev" : String) ≠ "/" ∧ goHasSuffix "dev" "//" = false
    ∧ goHasPfx (applyOpt storeDefault (.withPfxOpt "dev")).pfx "/" = true
    ∧ goHasSuffix (applyOpt storeDefault (.withPfxOpt "dev")).pfx "/" = false :=
  ⟨by decide, by decide, rfl,
   (c9_normalized_pfx storeDefault "dev" (by decide) (by decide) rfl).1,
   (c9_normalized_pfx storeDefault "dev" (by decide) (by decide) rfl).2⟩

end SSM
